import Mathlib

/-! # go-infrastructure: `errorutil`, `cryptoutil`, `fileutil`, `jsonutil`

A shallow embedding of `errorutils.go` and `type.go`, followed by the
properties of construction, inspection (`As`, `IsType`), unwrapping and
rendering; and of `GenerateRandomString` (`gen.go`), `DiffFiles` (`file.go`)
and `SliceJSONObjects`, `MergeJSON`, `FlattenJSON`, `ExtractValue`
(`jsonutils.go`), with the properties of each.

Modelling decisions

* A Go `error` interface value is a `GoError`: the nil interface, a value of
  dynamic type `CustomError`, or a value of some other dynamic type. For the
  other types, all that `As` can observe is whether the type has an
  `Unwrap() error` method and what a call of it does, so they are split into
  `plain` (no `Unwrap` method), `wrapper` (an `Unwrap` method that returns an
  error) and `badUnwrap` (an `Unwrap` method whose call panics, as for a nil
  `*CustomError`, whose value-receiver method is called through a nil pointer).
  A non-nil `*CustomError` is a `wrapper`: its dynamic type is not
  `CustomError` and its `Unwrap` returns the pointee's `OriginalErr`.
* `GoError` is an inductive type, so every `Unwrap` chain it describes is
  finite.
* A Go run either returns or panics: `Outcome`.
* `runtime.Caller(1)` is the environment; its `file` and `line` results are
  parameters of `New`. So are `rand.Reader` and the file system.
* The JSON functions are embedded between `json.Unmarshal` and `json.Marshal`:
  a document is the value that `Unmarshal` stores, and what is handed to
  `Marshal` is the result.
-/

namespace Errorutil

/-! ## Data model -/

/-- ErrorType categorizes the error: `type ErrorType string`. -/
abbrev ErrorType := String

/-- Predefined error type `NotFoundError`. -/
def NotFoundError : ErrorType := "NotFoundError"

/-- Predefined error type `ValidationError`. -/
def ValidationError : ErrorType := "ValidationError"

/-- Predefined error type `DatabaseError`. -/
def DatabaseError : ErrorType := "DatabaseError"

/-- Predefined error type `NetworkError`. -/
def NetworkError : ErrorType := "NetworkError"

/-- The fields of the `CustomError` struct, over the type `E` of error
interface values (`Type` is a reserved word, so that field is `Typ`). -/
structure CustomErrorOf (E : Type) where
  Typ : ErrorType
  Msg : String
  OriginalErr : E
  File : String
  Line : Int
  deriving DecidableEq, Repr

/-- A Go `error` interface value, by what `As` can observe of it. -/
inductive GoError where
  /-- The nil interface value. -/
  | nil : GoError
  /-- A value of dynamic type `CustomError`. -/
  | custom (e : CustomErrorOf GoError) : GoError
  /-- A value of another dynamic type that has no `Unwrap() error` method. -/
  | plain (text : String) : GoError
  /-- A value of another dynamic type whose `Unwrap()` returns `inner`. -/
  | wrapper (text : String) (inner : GoError) : GoError
  /-- A value of another dynamic type whose `Unwrap()` panics when called. -/
  | badUnwrap (text : String) : GoError

/-- The struct `CustomError`. -/
abbrev CustomError := CustomErrorOf GoError

/-- The zero value of `CustomError`, what `var customErr CustomError` holds. -/
def CustomError.zero : CustomError :=
  { Typ := "", Msg := "", OriginalErr := GoError.nil, File := "", Line := 0 }

/-- The result of running a Go function: it returns a value or it panics. -/
inductive Outcome (α : Type) where
  | panic : Outcome α
  | ret (a : α) : Outcome α
  deriving DecidableEq, Repr

/-- The `target interface{}` argument of `As`, together with the memory it
points to: a value whose dynamic type is not `*CustomError` (the nil interface
included), a nil `*CustomError`, or a pointer to a `CustomError` variable that
currently holds `cell`. -/
inductive Target where
  | other (descr : String) : Target
  | nilPtr : Target
  | ptr (cell : CustomError) : Target

/-! ## `fmt.Sprintf`, the fragment used by `Error` -/

/-- An operand of `Sprintf`. -/
inductive FmtArg where
  | str (s : String) : FmtArg
  | int (n : Int) : FmtArg

/-- Formatting of the characters of a format string: ordinary characters are
copied, `%s` renders a string operand as it is, `%d` renders an integer operand
in decimal. Anything else after a `%` is outside the fragment: `none`. -/
def sprintfChars : List Char → List FmtArg → Option (List Char)
  | [], _ => some []
  | c :: rest, args =>
    if c = '%' then
      match rest, args with
      | v :: rest2, FmtArg.str s :: args2 =>
        if v = 's' then (sprintfChars rest2 args2).map (fun out => s.data ++ out) else none
      | v :: rest2, FmtArg.int n :: args2 =>
        if v = 'd' then (sprintfChars rest2 args2).map (fun out => (toString n).data ++ out)
        else none
      | _, _ => none
    else (sprintfChars rest args).map (fun out => c :: out)

/-- Model of `fmt.Sprintf` on the fragment above. -/
def Sprintf (format : String) (args : List FmtArg) : Option String :=
  (sprintfChars format.data args).map String.mk

/-! ## errorutils.go -/

/-- Error implements the error interface:
`fmt.Sprintf("[%s] %s (File: %s, Line: %d)", e.Type, e.Msg, e.File, e.Line)`. -/
def CustomError.Error (e : CustomError) : String :=
  (Sprintf "[%s] %s (File: %s, Line: %d)"
    [FmtArg.str e.Typ, FmtArg.str e.Msg, FmtArg.str e.File, FmtArg.int e.Line]).getD ""

/-- Unwrap returns the original error: `return e.OriginalErr`. -/
def CustomError.Unwrap (e : CustomError) : GoError :=
  e.OriginalErr

/-- New creates a new CustomError; `file` and `line` are what
`runtime.Caller(1)` reports for the caller. -/
def New (file : String) (line : Int) (errType : ErrorType) (msg : String)
    (originalErr : GoError) : GoError :=
  GoError.custom
    { Typ := errType, Msg := msg, OriginalErr := originalErr, File := file, Line := line }

/-- As attempts to cast an error to CustomError. The result is the returned
boolean together with the target and the memory it points to after the call. -/
def As : GoError → Target → Outcome (Bool × Target)
  -- t, ok := target.(*CustomError); if !ok { return false }
  | _, Target.other descr => Outcome.ret (false, Target.other descr)
  -- customErr, ok := err.(CustomError) succeeds: `*t = customErr; return true`
  | GoError.custom _, Target.nilPtr => Outcome.panic
  | GoError.custom customErr, Target.ptr _ => Outcome.ret (true, Target.ptr customErr)
  -- wrappedErr, ok := err.(interface{ Unwrap() error }) succeeds:
  -- `return As(wrappedErr.Unwrap(), target)`
  | GoError.wrapper _ inner, target => As inner target
  | GoError.badUnwrap _, _ => Outcome.panic
  -- both assertions fail: `return false`
  | GoError.plain _, target => Outcome.ret (false, target)
  | GoError.nil, target => Outcome.ret (false, target)

/-- The variable a target points to; `dflt` when it points to none. -/
def Target.load (dflt : CustomError) : Target → CustomError
  | Target.ptr cell => cell
  | _ => dflt

/-- IsType checks if the error is of a specific ErrorType. The local
`customErr` starts as the zero value and `&customErr` is the target. -/
def IsType (err : GoError) (errType : ErrorType) : Outcome Bool :=
  match As err (Target.ptr CustomError.zero) with
  | Outcome.panic => Outcome.panic
  | Outcome.ret (asErr, target) =>
    let customErr := target.load CustomError.zero
    if asErr then Outcome.ret (customErr.Typ == errType) else Outcome.ret false

/-! ## The call depth of `As` -/

/-- The function `As` with a bound on the number of nested calls: every call,
the outermost included, takes one unit of `fuel`, and `none` means the bound
was reached before the walk ended. -/
def AsFuel : Nat → GoError → Target → Option (Outcome (Bool × Target))
  | 0, _, _ => none
  | _ + 1, _, Target.other descr => some (Outcome.ret (false, Target.other descr))
  | _ + 1, GoError.custom _, Target.nilPtr => some Outcome.panic
  | _ + 1, GoError.custom customErr, Target.ptr _ =>
    some (Outcome.ret (true, Target.ptr customErr))
  | fuel + 1, GoError.wrapper _ inner, target => AsFuel fuel inner target
  | _ + 1, GoError.badUnwrap _, _ => some Outcome.panic
  | _ + 1, GoError.plain _, target => some (Outcome.ret (false, target))
  | _ + 1, GoError.nil, target => some (Outcome.ret (false, target))

/-! ## Unwrap chains -/

/-- One step along the chain: the result of calling `Unwrap` on an error, when
the error has that method and the call returns. -/
def unwrapOnce : GoError → Option GoError
  | GoError.custom e => some (CustomError.Unwrap e)
  | GoError.wrapper _ inner => some inner
  | _ => none

/-- The chain `err, Unwrap(err), Unwrap(Unwrap(err)), ...`, up to the first
error that has no `Unwrap` method (or whose `Unwrap` does not return). -/
def chain : GoError → List GoError
  | GoError.nil => [GoError.nil]
  | GoError.custom ⟨ty, msg, orig, file, line⟩ =>
    GoError.custom ⟨ty, msg, orig, file, line⟩ :: chain orig
  | GoError.plain text => [GoError.plain text]
  | GoError.wrapper text inner => GoError.wrapper text inner :: chain inner
  | GoError.badUnwrap text => [GoError.badUnwrap text]

/-- The number of `Unwrap` links of the chain. -/
def chainLen (err : GoError) : Nat :=
  (chain err).length - 1

/-- Whether an error value is of dynamic type `CustomError`. -/
def isCustom : GoError → Bool
  | GoError.custom _ => true
  | _ => false

/-- The error is a `badUnwrap`: its `Unwrap` method panics. -/
def isBadUnwrap : GoError → Bool
  | GoError.badUnwrap _ => true
  | _ => false

/-- The first `CustomError` on a list of errors. -/
def firstCustom : List GoError → Option CustomError
  | [] => none
  | GoError.custom e :: _ => some e
  | _ :: rest => firstCustom rest

/-- Wrapping `err` in errors of other types, outermost first: each `Unwrap`
returns the next. -/
def wrapAll (texts : List String) (err : GoError) : GoError :=
  texts.foldr GoError.wrapper err

end Errorutil

/-! # `pkg/util/cryptoutil/gen.go` -/

namespace Cryptoutil

/-- The reader `rand.Reader`, the environment of this package: every read
fails with an error, or the reader yields the bytes `next 0, next 1, ...`. -/
inductive Reader where
  | failing (err : String) : Reader
  | stream (next : Nat → Nat) : Reader

/-- The call `io.ReadFull(r, b)` on a buffer of `n` bytes: the filled buffer
or the error of the reader. A buffer of length 0 is full without any read. -/
def ReadFull (r : Reader) (n : Nat) : Except String (List Nat) :=
  if n = 0 then Except.ok []
  else
    match r with
    | Reader.failing err => Except.error err
    | Reader.stream next => Except.ok ((List.range n).map (fun i => next i % 256))

/-- GenerateRandomBytes returns securely generated random bytes.
`make([]byte, n)` panics for a negative `n`. -/
def GenerateRandomBytes (r : Reader) (n : Int) : Errorutil.Outcome (Except String (List Nat)) :=
  if n < 0 then Errorutil.Outcome.panic
  else
    match ReadFull r n.toNat with
    | Except.error err => Errorutil.Outcome.ret (Except.error err)
    | Except.ok b => Errorutil.Outcome.ret (Except.ok b)

/-- The digits of `encoding/hex`: `const hextable = "0123456789abcdef"`. -/
def hextable : List Char :=
  ['0', '1', '2', '3', '4', '5', '6', '7', '8', '9', 'a', 'b', 'c', 'd', 'e', 'f']

/-- The two digits of one byte: `hextable[v>>4]`, `hextable[v&0x0f]`. -/
def encodeByte (v : Nat) : List Char :=
  [hextable.getD (v % 256 / 16) '0', hextable.getD (v % 16) '0']

/-- The function `hex.EncodeToString`: two digits for every byte of `src`. -/
def EncodeToString : List Nat → List Char
  | [] => []
  | v :: rest => encodeByte v ++ EncodeToString rest

/-- GenerateRandomString generates a secure random string of the desired
length: `hex.EncodeToString(bytes)` of `GenerateRandomBytes(length)`. -/
def GenerateRandomString (r : Reader) (length : Int) : Errorutil.Outcome (Except String String) :=
  match GenerateRandomBytes r length with
  | Errorutil.Outcome.panic => Errorutil.Outcome.panic
  | Errorutil.Outcome.ret (Except.error err) => Errorutil.Outcome.ret (Except.error err)
  | Errorutil.Outcome.ret (Except.ok bytes) =>
    Errorutil.Outcome.ret (Except.ok (String.mk (EncodeToString bytes)))

end Cryptoutil

/-! # `pkg/util/fileutil/file.go`: `DiffFiles` -/

namespace Fileutil

/-- A `bufio.Scanner` with the default split function `ScanLines`, by the lines
it has yet to yield (each within the scanner's buffer limit). -/
abbrev Scanner := List String

/-- One call of `Scan()` followed by `Text()`: `none` when `Scan` returns
false, else the line and the scanner after it. A scanner at the end of its
input stays there. -/
def Scanner.Scan : Scanner → Option (String × Scanner)
  | [] => none
  | line :: rest => some (line, rest)

/-- How the loop of `DiffFiles` ends: by `return true` inside it, or by its
condition becoming false, with the two scanners as they are then. -/
inductive LoopEnd where
  | different : LoopEnd
  | done (scanner1 scanner2 : Scanner) : LoopEnd

/-- The loop `for scanner1.Scan() && scanner2.Scan() { if scanner1.Text() !=
scanner2.Text() { return true, nil } }`. The `&&` calls `scanner2.Scan()` only
when `scanner1.Scan()` returned true. -/
def diffLoop : Scanner → Scanner → LoopEnd
  | [], scanner2 => LoopEnd.done [] scanner2
  | _ :: scanner1, [] => LoopEnd.done scanner1 []
  | text1 :: scanner1, text2 :: scanner2 =>
    if text1 != text2 then LoopEnd.different else diffLoop scanner1 scanner2

/-- The comparison of `DiffFiles` on the lines of two opened files. -/
def diffLines (lines1 lines2 : List String) : Bool :=
  match diffLoop lines1 lines2 with
  | LoopEnd.different => true
  | LoopEnd.done scanner1 scanner2 =>
    -- if scanner1.Scan() || scanner2.Scan() { return true, nil }
    if (Scanner.Scan scanner1).isSome || (Scanner.Scan scanner2).isSome then true
    else false

/-- DiffFiles compares two files and returns true if they are different.
The file system `fs` gives the lines of the file at a path, or the error of
`os.Open`. -/
def DiffFiles (fs : String → Except String (List String)) (file1Path file2Path : String) :
    Except String Bool :=
  match fs file1Path with
  | Except.error err => Except.error err
  | Except.ok lines1 =>
    match fs file2Path with
    | Except.error err => Except.error err
    | Except.ok lines2 => Except.ok (diffLines lines1 lines2)

end Fileutil

/-! # `pkg/util/jsonutil/jsonutils.go` -/

namespace Jsonutil

/-- A JSON document as `json.Unmarshal` stores it in an `interface{}`: nil,
a `bool`, a `float64` (kept as the text of the number, it is never computed
with), a `string`, a `[]interface{}` or a `map[string]interface{}`. The
fields of an object are the entries of the Go map, each key once, in the order
in which a `range` over the map visits them. -/
inductive JSON where
  | null : JSON
  | bool (b : Bool) : JSON
  | number (text : String) : JSON
  | string (s : String) : JSON
  | array (items : List JSON) : JSON
  | object (fields : List (String × JSON)) : JSON

/-- The slice expression `s[i:j]` for `0 ≤ i ≤ j ≤ len(s)`. -/
def sliceOf (s : List JSON) (i j : Nat) : List JSON :=
  (s.drop i).take (j - i)

/-- The loop `for i := 0; i < len(objs); i += size` of `SliceJSONObjects`, from
the index `i` and with the chunks appended so far; every iteration takes one
unit of `fuel`, and `none` means the fuel ran out. `json.Marshal` of a slice is
the JSON array of its elements. -/
def sliceLoop (objs : List JSON) (size : Nat) : Nat → Nat → List JSON → Option (List JSON)
  | 0, _, _ => none
  | fuel + 1, i, chunks =>
    if i < objs.length then
      let stop := if i + size > objs.length then objs.length else i + size
      sliceLoop objs size fuel (i + size) (chunks ++ [JSON.array (sliceOf objs i stop)])
    else some chunks

/-- SliceJSONObjects divides a JSON array into smaller slices of a specified
size. Unmarshalling into `[]interface{}` accepts an array and `null` (a nil
slice) and is an error for any other document. -/
def SliceJSONObjects (jsonData : JSON) (size : Nat) (fuel : Nat) :
    Option (Except String (List JSON)) :=
  match jsonData with
  | JSON.array objs => (sliceLoop objs size fuel 0 []).map Except.ok
  | JSON.null => (sliceLoop [] size fuel 0 []).map Except.ok
  | _ => some (Except.error "json: cannot unmarshal into Go value of type []interface {}")

end Jsonutil

namespace Jsonutil

/-- A Go `map[string]interface{}` by its entries, in the order of a `range`. -/
abbrev GoMap := List (String × JSON)

/-- The lookup `m[k]` with its `ok`: the value stored under `k`, if any. -/
def GoMap.get : GoMap → String → Option JSON
  | [], _ => none
  | (k2, v) :: rest, k => if k2 = k then some v else GoMap.get rest k

/-- The assignment `m[k] = v`: the entry under `k` is replaced, or a new one
is added. -/
def GoMap.set : GoMap → String → JSON → GoMap
  | [], k, v => [(k, v)]
  | (k2, v2) :: rest, k, v =>
    if k2 = k then (k, v) :: rest else (k2, v2) :: GoMap.set rest k v

/-- Unmarshalling into a `map[string]interface{}` variable: an object gives
its map, `null` leaves the variable a nil map (`none`), any other document is
an error. -/
def unmarshalMap : JSON → Except String (Option GoMap)
  | JSON.object fields => Except.ok (some fields)
  | JSON.null => Except.ok none
  | _ => Except.error "json: cannot unmarshal into Go value of type map[string]interface {}"

/-- The function `strings.TrimPrefix`. -/
def TrimPrefix (s pre : String) : String :=
  if pre.data <+: s.data then String.mk (s.data.drop pre.data.length) else s

mutual
/-- Helper function to recursively flatten the JSON. -/
def flatten : String → JSON → GoMap → GoMap
  | currentPath, JSON.object castedMap, flatMap => flattenRange currentPath castedMap flatMap
  | currentPath, JSON.null, flatMap =>
    GoMap.set flatMap (TrimPrefix currentPath ".") JSON.null
  | currentPath, JSON.bool b, flatMap =>
    GoMap.set flatMap (TrimPrefix currentPath ".") (JSON.bool b)
  | currentPath, JSON.number text, flatMap =>
    GoMap.set flatMap (TrimPrefix currentPath ".") (JSON.number text)
  | currentPath, JSON.string s, flatMap =>
    GoMap.set flatMap (TrimPrefix currentPath ".") (JSON.string s)
  | currentPath, JSON.array items, flatMap =>
    GoMap.set flatMap (TrimPrefix currentPath ".") (JSON.array items)
/-- The loop `for k, v := range castedMap` of `flatten`. -/
def flattenRange : String → List (String × JSON) → GoMap → GoMap
  | _, [], flatMap => flatMap
  | currentPath, (k, v) :: rest, flatMap =>
    flattenRange currentPath rest
      (flatten ((Errorutil.Sprintf "%s.%s"
        [Errorutil.FmtArg.str currentPath, Errorutil.FmtArg.str k]).getD "") v flatMap)
end

/-- FlattenJSON converts nested JSON object into a flat map with compound
keys. A nil map (from `null`) is ranged over like an empty one. -/
def FlattenJSON (data : JSON) : Except String GoMap :=
  match unmarshalMap data with
  | Except.error err => Except.error err
  | Except.ok none => Except.ok (flatten "" (JSON.object []) [])
  | Except.ok (some original) => Except.ok (flatten "" (JSON.object original) [])

/-- The loop `for k, v := range obj2 { obj1[k] = v }` of `MergeJSON`; an
assignment to an entry of a nil map panics. -/
def mergeRange : Option GoMap → List (String × JSON) → Errorutil.Outcome (Option GoMap)
  | obj1, [] => Errorutil.Outcome.ret obj1
  | none, _ :: _ => Errorutil.Outcome.panic
  | some obj1, (k, v) :: rest => mergeRange (some (GoMap.set obj1 k v)) rest

/-- The call `json.Marshal(obj1)` on a map: `null` for a nil map. -/
def marshalMap : Option GoMap → JSON
  | none => JSON.null
  | some m => JSON.object m

/-- MergeJSON merges two JSON objects, with values from the second object
overriding those in the first if they conflict. -/
def MergeJSON (jsonData1 jsonData2 : JSON) : Errorutil.Outcome (Except String JSON) :=
  match unmarshalMap jsonData1 with
  | Except.error err => Errorutil.Outcome.ret (Except.error err)
  | Except.ok obj1 =>
    match unmarshalMap jsonData2 with
    | Except.error err => Errorutil.Outcome.ret (Except.error err)
    | Except.ok obj2 =>
      match mergeRange obj1 (obj2.getD []) with
      | Errorutil.Outcome.panic => Errorutil.Outcome.panic
      | Errorutil.Outcome.ret merged => Errorutil.Outcome.ret (Except.ok (marshalMap merged))

/-- The call `strings.Split(s, ".")` on the characters of `s`. -/
def splitDots : List Char → List (List Char)
  | [] => [[]]
  | c :: rest =>
    if c = '.' then [] :: splitDots rest
    else
      match splitDots rest with
      | [] => [[c]]
      | part :: parts => (c :: part) :: parts

/-- The loop over `pathParts` of `ExtractValue`, from the value `obj`: `none`
is the `return nil, fmt.Errorf(...)`. A key that the map lacks reads as nil,
which is also what a JSON `null` is. -/
def extractLoop : JSON → List String → Option JSON
  | obj, [] => some obj
  | JSON.object objMap, part :: rest =>
    extractLoop ((GoMap.get objMap part).getD JSON.null) rest
  | _, _ :: _ => none

/-- ExtractValue gets a value specified by a dot-separated path in a nested
JSON structure. -/
def ExtractValue (jsonData : JSON) (path : String) : Except String JSON :=
  match extractLoop jsonData ((splitDots path.data).map String.mk) with
  | some obj => Except.ok obj
  | none =>
    Except.error
      ((Errorutil.Sprintf "path not found: %s" [Errorutil.FmtArg.str path]).getD "")

/-! ### Paths to the values of a document -/

mutual
/-- The non-object values under `value`, each with the keys on the path to it. -/
def leaves (value : JSON) : List (List String × JSON) :=
  match value with
  | JSON.object fields => leavesOfFields fields
  | other => [([], other)]
/-- The non-object values under the entries of an object. -/
def leavesOfFields (fields : List (String × JSON)) : List (List String × JSON) :=
  match fields with
  | [] => []
  | (k, v) :: rest => (leaves v).map (fun pv => (k :: pv.1, pv.2)) ++ leavesOfFields rest
end

/-- The keys of a path joined with ".". -/
def joinPath (path : List String) : String :=
  ".".intercalate path

/-- The path string of `flatten` after descending from `currentPath` along the
keys of `path`: each step is `currentPath + "." + k`. -/
def extendPath (currentPath : String) (path : List String) : String :=
  path.foldl (fun p k => p ++ "." ++ k) currentPath

/-- The assignments `flatMap[trimmedPath] = value` that the values `found`
under `currentPath` give rise to, in order. -/
def writes (currentPath : String) (found : List (List String × JSON)) :
    List (String × JSON) :=
  found.map (fun pv => (TrimPrefix (extendPath currentPath pv.1) ".", pv.2))

/-- A sequence of assignments to a map. -/
def putAll (m : GoMap) (ws : List (String × JSON)) : GoMap :=
  ws.foldl (fun acc kv => GoMap.set acc kv.1 kv.2) m

end Jsonutil

namespace Errorutil

/-! ## Shared lemmas on `As` -/

/-- With a non-nil `*CustomError` target, a call of `As` panics, or returns
false leaving the variable alone, or returns true having stored a value that
does not depend on what the variable held. -/
theorem As_ptr_shape : ∀ err : GoError,
    (∀ cell, As err (Target.ptr cell) = Outcome.panic) ∨
    (∀ cell, As err (Target.ptr cell) = Outcome.ret (false, Target.ptr cell)) ∨
    (∃ c, ∀ cell, As err (Target.ptr cell) = Outcome.ret (true, Target.ptr c))
  | GoError.nil => Or.inr (Or.inl (fun _ => rfl))
  | GoError.custom e => Or.inr (Or.inr ⟨e, fun _ => rfl⟩)
  | GoError.plain _ => Or.inr (Or.inl (fun _ => rfl))
  | GoError.wrapper _ inner => by
    simpa [As] using As_ptr_shape inner
  | GoError.badUnwrap _ => Or.inl (fun _ => rfl)

/-- What `As` stores and returns on success does not depend on the initial
content of the target variable. -/
theorem As_ptr_true_indep (err : GoError) (cell cell2 c : CustomError)
    (h : As err (Target.ptr cell) = Outcome.ret (true, Target.ptr c)) :
    As err (Target.ptr cell2) = Outcome.ret (true, Target.ptr c) := by
  rcases As_ptr_shape err with hp | hf | ⟨c2, ht⟩
  · rw [hp cell] at h; cases h
  · rw [hf cell] at h; cases h
  · rw [ht cell] at h
    have hc : c2 = c := by
      injection h with h1; injection h1 with _ h2; injection h2
    rw [ht cell2, hc]

/-- When `As` returns true for a non-nil `*CustomError` target, the target
still points to a variable. -/
theorem As_ptr_true_target (err : GoError) (cell : CustomError) (t : Target)
    (h : As err (Target.ptr cell) = Outcome.ret (true, t)) : ∃ c, t = Target.ptr c := by
  rcases As_ptr_shape err with hp | hf | ⟨c2, ht⟩
  · rw [hp cell] at h; cases h
  · rw [hf cell] at h; cases h
  · rw [ht cell] at h
    refine ⟨c2, ?_⟩
    injection h with h1; injection h1 with _ h2; exact h2.symm

/-- The outcome of `IsType` in terms of the outcome of `As` on a fresh variable. -/
theorem IsType_of_As_true (err : GoError) (errType : ErrorType) (c : CustomError)
    (h : As err (Target.ptr CustomError.zero) = Outcome.ret (true, Target.ptr c)) :
    IsType err errType = Outcome.ret (c.Typ == errType) := by
  simp [IsType, h, Target.load]

/-- When `As` returns false, so does `IsType`. -/
theorem IsType_of_As_false (err : GoError) (errType : ErrorType)
    (h : As err (Target.ptr CustomError.zero)
      = Outcome.ret (false, Target.ptr CustomError.zero)) :
    IsType err errType = Outcome.ret false := by
  simp [IsType, h]

/-- When `As` panics, so does `IsType`. -/
theorem IsType_of_As_panic (err : GoError) (errType : ErrorType)
    (h : As err (Target.ptr CustomError.zero) = Outcome.panic) :
    IsType err errType = Outcome.panic := by
  simp [IsType, h]

/-! ## Shared lemmas on chains and rendering -/

/-- A `CustomError` at the head is the first one. -/
theorem firstCustom_cons_custom (e : CustomError) (rest : List GoError) :
    firstCustom (GoError.custom e :: rest) = some e := rfl

/-- A head of another type is skipped. -/
theorem firstCustom_cons_other (x : GoError) (rest : List GoError) (h : isCustom x = false) :
    firstCustom (x :: rest) = firstCustom rest := by
  cases x <;> first | rfl | simp [isCustom] at h

/-- The first `CustomError` of a list is the one with no `CustomError` before it. -/
theorem firstCustom_eq_some (l : List GoError) (c : CustomError) :
    firstCustom l = some c ↔
      ∃ pre post, l = pre ++ GoError.custom c :: post ∧ ∀ e ∈ pre, isCustom e = false := by
  induction l with
  | nil => simp [firstCustom]
  | cons x rest ih =>
    cases hx : isCustom x with
    | true =>
      obtain ⟨e, rfl⟩ : ∃ e, x = GoError.custom e := by
        cases x <;> simp [isCustom] at hx
        exact ⟨_, rfl⟩
      rw [firstCustom_cons_custom]
      constructor
      · intro h
        injection h with h
        exact ⟨[], rest, by simp [h], by simp⟩
      · rintro ⟨pre, post, h1, h2⟩
        cases pre with
        | nil =>
          simp at h1
          rw [h1.1]
        | cons y pre2 =>
          simp at h1
          have := h2 y (by simp)
          rw [← h1.1] at this
          simp [isCustom] at this
    | false =>
      rw [firstCustom_cons_other x rest hx, ih]
      constructor
      · rintro ⟨pre, post, h1, h2⟩
        refine ⟨x :: pre, post, by simp [h1], ?_⟩
        intro e he
        simp at he
        rcases he with he | he
        · subst he; exact hx
        · exact h2 e he
      · rintro ⟨pre, post, h1, h2⟩
        cases pre with
        | nil =>
          simp at h1
          rw [h1.1] at hx
          simp [isCustom] at hx
        | cons y pre2 =>
          simp at h1
          exact ⟨pre2, post, h1.2, fun e he => h2 e (by simp [he])⟩

/-- No first `CustomError` means no `CustomError` at all. -/
theorem firstCustom_eq_none (l : List GoError) :
    firstCustom l = none ↔ ∀ e ∈ l, isCustom e = false := by
  induction l with
  | nil => simp [firstCustom]
  | cons x rest ih =>
    cases hx : isCustom x with
    | true =>
      obtain ⟨e, rfl⟩ : ∃ e, x = GoError.custom e := by
        cases x <;> simp [isCustom] at hx
        exact ⟨_, rfl⟩
      simp [firstCustom_cons_custom, isCustom]
    | false =>
      rw [firstCustom_cons_other x rest hx, ih]
      simp [hx]

/-- On a non-nil target, `As` returns true with `c` stored exactly when `c`
is the first `CustomError` of the chain. -/
theorem As_true_iff_firstCustom : ∀ (err : GoError) (cell c : CustomError),
    As err (Target.ptr cell) = Outcome.ret (true, Target.ptr c) ↔
      firstCustom (chain err) = some c
  | GoError.nil, cell, c => by simp [As, chain, firstCustom]
  | GoError.custom ⟨ty, msg, orig, file, line⟩, cell, c => by
    simp [As, chain, firstCustom]
  | GoError.plain _, cell, c => by simp [As, chain, firstCustom]
  | GoError.wrapper _ inner, cell, c => by
    simpa [As, chain, firstCustom] using As_true_iff_firstCustom inner cell c
  | GoError.badUnwrap _, cell, c => by simp [As, chain, firstCustom]

/-- On a non-nil target, when every `Unwrap` call of the chain returns, `As`
returns false, leaving the variable alone, exactly when the chain has no
`CustomError`. -/
theorem As_false_of_no_custom : ∀ (err : GoError) (cell : CustomError),
    (∀ e ∈ chain err, isBadUnwrap e = false) →
    (∀ e ∈ chain err, isCustom e = false) →
    As err (Target.ptr cell) = Outcome.ret (false, Target.ptr cell)
  | GoError.nil, cell, _, _ => rfl
  | GoError.custom ⟨ty, msg, orig, file, line⟩, cell, _, h2 => by
    simp [chain, isCustom] at h2
  | GoError.plain _, cell, _, _ => rfl
  | GoError.wrapper _ inner, cell, h1, h2 => by
    simp only [chain, List.mem_cons, forall_eq_or_imp] at h1 h2
    simpa [As] using As_false_of_no_custom inner cell h1.2 h2.2
  | GoError.badUnwrap _, cell, h1, _ => by
    simp [chain, isBadUnwrap] at h1

/-- The text of `Error`, evaluated from the format string. -/
theorem Error_format (e : CustomError) :
    CustomError.Error e
      = "[" ++ e.Typ ++ "] " ++ e.Msg ++ " (File: " ++ e.File ++ ", Line: "
          ++ toString e.Line ++ ")" := by
  apply String.ext
  simp [CustomError.Error, Sprintf, sprintfChars]

/-! ## Construction and inspection -/

/-- C1: for every category `C`, message `M` and cause (nil included), and
whatever the target variable held, `As(New(C, M, cause), &t)` returns true and
leaves in `t` the `CustomError` whose `Type` is `C`, whose `Msg` is `M` and whose
`OriginalErr` is the cause; `IsType` of the fresh error against `C` is true. -/
theorem C1_As_New_reads_back (file : String) (line : Int) (C : ErrorType) (M : String)
    (cause : GoError) (cell : CustomError) :
    As (New file line C M cause) (Target.ptr cell)
      = Outcome.ret (true, Target.ptr ⟨C, M, cause, file, line⟩) ∧
    (∀ t : CustomError,
      As (New file line C M cause) (Target.ptr cell) = Outcome.ret (true, Target.ptr t) →
      t.Typ = C ∧ t.Msg = M ∧ t.OriginalErr = cause) ∧
    As (New file line C M GoError.nil) (Target.ptr cell)
      = Outcome.ret (true, Target.ptr ⟨C, M, GoError.nil, file, line⟩) ∧
    IsType (New file line C M cause) C = Outcome.ret true := by
  refine ⟨rfl, ?_, rfl, by simp [IsType, New, As, Target.load]⟩
  intro t h
  simp only [New, As] at h
  injection h with h1; injection h1 with _ h2; injection h2 with h3
  subst h3
  exact ⟨rfl, rfl, rfl⟩

/-- C2: on `New(C, M1, New(C2, M2, nil))` the `CustomError` found by `As` is the
outer one, of category `C`; `IsType` against `C` is true, and against `C2` it is
true only when `C2` equals `C`. -/
theorem C2_outermost_category_wins (file1 file2 : String) (line1 line2 : Int)
    (C C2 : ErrorType) (M1 M2 : String) (cell : CustomError) :
    As (New file1 line1 C M1 (New file2 line2 C2 M2 GoError.nil)) (Target.ptr cell)
      = Outcome.ret (true,
          Target.ptr ⟨C, M1, New file2 line2 C2 M2 GoError.nil, file1, line1⟩) ∧
    IsType (New file1 line1 C M1 (New file2 line2 C2 M2 GoError.nil)) C = Outcome.ret true ∧
    (IsType (New file1 line1 C M1 (New file2 line2 C2 M2 GoError.nil)) C2 = Outcome.ret true
      ↔ C2 = C) := by
  refine ⟨rfl, by simp [IsType, New, As, Target.load], ?_⟩
  simp only [IsType, New, As, Target.load]
  constructor
  · intro h
    injection h with h1
    exact (of_decide_eq_true h1).symm
  · intro h
    subst h
    simp

/-- C4: `IsType(err, C)` is true exactly when `As(err, &t)` succeeds, for a
variable `t` of any content, and the `Type` of the `CustomError` it stored in
`t` equals `C`. -/
theorem C4_IsType_iff_As (err : GoError) (C : ErrorType) (cell : CustomError) :
    IsType err C = Outcome.ret true ↔
      ∃ t : CustomError,
        As err (Target.ptr cell) = Outcome.ret (true, Target.ptr t) ∧ t.Typ = C := by
  rcases As_ptr_shape err with hp | hf | ⟨c, ht⟩
  · simp [IsType_of_As_panic err C (hp _), hp cell]
  · simp [IsType_of_As_false err C (hf _), hf cell]
  · rw [IsType_of_As_true err C c (ht _), ht cell]
    constructor
    · intro h
      refine ⟨c, rfl, ?_⟩
      injection h with h1
      simpa using h1
    · rintro ⟨t, h1, h2⟩
      injection h1 with h3; injection h3 with _ h4; injection h4 with h5
      subst h5
      simp [h2]

/-- C6: `IsType(nil, C)` is false and `As(nil, target)` returns false, without a
panic and leaving the target as it was, for every target; the same holds for an
error of another type whose `Unwrap` returns nil. -/
theorem C6_nil_is_no_match (C : ErrorType) (target : Target) (text : String) :
    IsType GoError.nil C = Outcome.ret false ∧
    As GoError.nil target = Outcome.ret (false, target) ∧
    IsType (GoError.wrapper text GoError.nil) C = Outcome.ret false ∧
    As (GoError.wrapper text GoError.nil) target = Outcome.ret (false, target) := by
  refine ⟨rfl, ?_, rfl, ?_⟩ <;> cases target <;> rfl

/-- C7: unwrapping `New(C, M, inner)` once, by the `Unwrap` method of the
`CustomError` that `New` returned, yields exactly `inner`, for every error
`inner` and for nil. -/
theorem C7_Unwrap_New (file : String) (line : Int) (C : ErrorType) (M : String)
    (inner : GoError) :
    (∃ e : CustomError, New file line C M inner = GoError.custom e ∧
      CustomError.Unwrap e = inner) ∧
    unwrapOnce (New file line C M inner) = some inner ∧
    unwrapOnce (New file line C M GoError.nil) = some GoError.nil :=
  ⟨⟨⟨C, M, inner, file, line⟩, rfl, rfl⟩, rfl, rfl⟩

/-! ## The walk along the chain -/

/-- Enough fuel: with at least as many nested calls allowed as the chain has
errors, the bounded `As` ends and gives the result of `As`. -/
theorem AsFuel_of_chain_le : ∀ (err : GoError) (target : Target) (fuel : Nat),
    (chain err).length ≤ fuel → AsFuel fuel err target = some (As err target)
  | GoError.nil, target, fuel, h => by
    cases fuel with
    | zero => simp [chain] at h
    | succ n => cases target <;> rfl
  | GoError.custom ⟨ty, msg, orig, file, line⟩, target, fuel, h => by
    cases fuel with
    | zero => simp [chain] at h
    | succ n => cases target <;> rfl
  | GoError.plain _, target, fuel, h => by
    cases fuel with
    | zero => simp [chain] at h
    | succ n => cases target <;> rfl
  | GoError.badUnwrap _, target, fuel, h => by
    cases fuel with
    | zero => simp [chain] at h
    | succ n => cases target <;> rfl
  | GoError.wrapper _ inner, target, fuel, h => by
    cases fuel with
    | zero => simp [chain] at h
    | succ n =>
      have h2 : (chain inner).length ≤ n := by
        simp only [chain, List.length_cons] at h
        omega
      have ih := AsFuel_of_chain_le inner target n h2
      cases target with
      | other d =>
        simp only [AsFuel, As] at ih ⊢
      | nilPtr => simpa [AsFuel, As] using ih
      | ptr cell => simpa [AsFuel, As] using ih

/-- A chain has at least one error, so its length is its number of links
plus one. -/
theorem chain_length (err : GoError) : (chain err).length = chainLen err + 1 := by
  have h : 0 < (chain err).length := by
    cases err with
    | custom e => cases e; simp [chain]
    | _ => simp [chain]
  simp only [chainLen]
  omega

/-- Under `k` wrappers the bounded `As` needs more than `k` nested calls, and
with one more it gives what the innermost error gives with one. -/
theorem AsFuel_wrapAll (texts : List String) (err : GoError) (cell : CustomError) :
    AsFuel texts.length (wrapAll texts err) (Target.ptr cell) = none ∧
    AsFuel (texts.length + 1) (wrapAll texts err) (Target.ptr cell)
      = AsFuel 1 err (Target.ptr cell) ∧
    As (wrapAll texts err) (Target.ptr cell) = As err (Target.ptr cell) := by
  induction texts with
  | nil => exact ⟨by simp [AsFuel], rfl, rfl⟩
  | cons x rest ih =>
    obtain ⟨h1, h2, h3⟩ := ih
    refine ⟨?_, ?_, ?_⟩
    · simpa [wrapAll, AsFuel] using h1
    · simpa [wrapAll, AsFuel] using h2
    · simpa [wrapAll, As] using h3

/-- C3: for an error whose chain of `Unwrap` calls all return, `As(err, &t)`
returns true with `c` in `t` exactly when `c` is the first `CustomError` of the
chain `err, Unwrap(err), ...` (none before it); it returns true exactly when
some error of the chain is a `CustomError`; and it returns false, leaving `t`
alone, exactly when the chain holds no `CustomError`. -/
theorem C3_As_finds_first_CustomError (err : GoError) (cell : CustomError)
    (h : ∀ e ∈ chain err, isBadUnwrap e = false) :
    (∀ c : CustomError,
      As err (Target.ptr cell) = Outcome.ret (true, Target.ptr c) ↔
        ∃ pre post, chain err = pre ++ GoError.custom c :: post ∧
          ∀ e ∈ pre, isCustom e = false) ∧
    ((∃ t, As err (Target.ptr cell) = Outcome.ret (true, t)) ↔
      ∃ e ∈ chain err, isCustom e = true) ∧
    (As err (Target.ptr cell) = Outcome.ret (false, Target.ptr cell) ↔
      ∀ e ∈ chain err, isCustom e = false) := by
  have hA : ∀ c : CustomError,
      As err (Target.ptr cell) = Outcome.ret (true, Target.ptr c) ↔
        ∃ pre post, chain err = pre ++ GoError.custom c :: post ∧
          ∀ e ∈ pre, isCustom e = false := fun c =>
    (As_true_iff_firstCustom err cell c).trans (firstCustom_eq_some (chain err) c)
  refine ⟨hA, ?_, ?_⟩
  · constructor
    · rintro ⟨t, ht⟩
      obtain ⟨c, rfl⟩ := As_ptr_true_target err cell t ht
      obtain ⟨pre, post, h1, _⟩ := (hA c).mp ht
      exact ⟨GoError.custom c, by simp [h1], rfl⟩
    · rintro ⟨e, he, hc⟩
      cases hf : firstCustom (chain err) with
      | none =>
        have := (firstCustom_eq_none (chain err)).mp hf e he
        rw [hc] at this
        cases this
      | some c => exact ⟨Target.ptr c, (As_true_iff_firstCustom err cell c).mpr hf⟩
  · constructor
    · intro hf
      apply (firstCustom_eq_none (chain err)).mp
      cases hfc : firstCustom (chain err) with
      | none => rfl
      | some c =>
        have := (As_true_iff_firstCustom err cell c).mpr hfc
        rw [this] at hf
        injection hf with h1; injection h1 with h2
        cases h2
    · exact As_false_of_no_custom err cell h

/-- Witness of C3: a wrapper around `New(DatabaseError, "write failed", inner)`
with a plain `inner`. -/
theorem C3_As_finds_first_CustomError_witness :
    As (GoError.wrapper "outer"
          (New "db.go" 7 DatabaseError "write failed" (GoError.plain "io")))
        (Target.ptr CustomError.zero)
      = Outcome.ret (true,
          Target.ptr ⟨DatabaseError, "write failed", GoError.plain "io", "db.go", 7⟩) :=
  ((C3_As_finds_first_CustomError
      (GoError.wrapper "outer"
        (New "db.go" 7 DatabaseError "write failed" (GoError.plain "io")))
      CustomError.zero
      (by simp [chain, New, isBadUnwrap])).1
    ⟨DatabaseError, "write failed", GoError.plain "io", "db.go", 7⟩).mpr
    ⟨[GoError.wrapper "outer"
        (New "db.go" 7 DatabaseError "write failed" (GoError.plain "io"))],
      [GoError.plain "io"], rfl, by simp [isCustom]⟩

/-- C5, as stated, fails: an error of another type whose `Unwrap` returns an
error made by `New` is matched by `IsType`, and so is a `CustomError` written
as a struct literal. -/
theorem C5_counterexample :
    isCustom (GoError.wrapper "outer" (New "a.go" 3 NotFoundError "user missing" GoError.nil))
      = false ∧
    IsType (GoError.wrapper "outer" (New "a.go" 3 NotFoundError "user missing" GoError.nil))
      NotFoundError = Outcome.ret true ∧
    IsType (GoError.custom
        { Typ := NotFoundError, Msg := "", OriginalErr := GoError.nil, File := "", Line := 0 })
      NotFoundError = Outcome.ret true := by
  decide

/-- C5, amended: for every error whose chain of `Unwrap` calls all return and
holds no value of type `CustomError` (nil, errors of other types, wrappers
around those), `IsType(err, C)` is false for every `C`. -/
theorem C5_IsType_false_without_CustomError (err : GoError) (C : ErrorType)
    (h1 : ∀ e ∈ chain err, isBadUnwrap e = false)
    (h2 : ∀ e ∈ chain err, isCustom e = false) :
    IsType err C = Outcome.ret false :=
  IsType_of_As_false err C (As_false_of_no_custom err CustomError.zero h1 h2)

/-- Witness of the amended C5: a wrapper around a plain error. -/
theorem C5_IsType_false_without_CustomError_witness :
    IsType (GoError.wrapper "outer" (GoError.plain "io")) NetworkError = Outcome.ret false :=
  C5_IsType_false_without_CustomError (GoError.wrapper "outer" (GoError.plain "io"))
    NetworkError (by simp [chain, isBadUnwrap]) (by simp [chain, isCustom])

/-! ## Rendering -/

/-- C8: the text of `Error()` is `"[" + Type + "] " + Msg + " (File: " + File +
", Line: " + decimal Line + ")"`; it holds the category label and the message
verbatim as substrings, and two values that agree on these four fields render
to the same text. -/
theorem C8_Error_text (e : CustomError) :
    CustomError.Error e
      = "[" ++ e.Typ ++ "] " ++ e.Msg ++ " (File: " ++ e.File ++ ", Line: "
          ++ toString e.Line ++ ")" ∧
    (∃ pre post : String, CustomError.Error e = pre ++ e.Typ ++ post) ∧
    (∃ pre post : String, CustomError.Error e = pre ++ e.Msg ++ post) ∧
    (∀ e2 : CustomError, e2 = e → CustomError.Error e2 = CustomError.Error e) ∧
    (∀ e2 : CustomError, e2.Typ = e.Typ ∧ e2.Msg = e.Msg ∧ e2.File = e.File ∧
      e2.Line = e.Line → CustomError.Error e2 = CustomError.Error e) := by
  refine ⟨Error_format e, ⟨"[", "] " ++ e.Msg ++ " (File: " ++ e.File ++ ", Line: "
      ++ toString e.Line ++ ")", ?_⟩, ⟨"[" ++ e.Typ ++ "] ", " (File: " ++ e.File ++ ", Line: "
      ++ toString e.Line ++ ")", ?_⟩, ?_, ?_⟩
  · rw [Error_format]; simp [String.append_assoc]
  · rw [Error_format]; simp [String.append_assoc]
  · rintro e2 rfl; rfl
  · rintro e2 ⟨h1, h2, h3, h4⟩
    rw [Error_format, Error_format, h1, h2, h3, h4]

/-! ## Termination and depth -/

/-- C9: the walk of `As` ends within `n + 1` nested calls on a chain of `n`
`Unwrap` links, and with any larger bound gives the same result; no depth is
fixed: under any number `k` of wrappers a `CustomError` is found, by `k + 1`
calls and not by `k`; and under `k` wrappers an error that is no
`CustomError` and has no `Unwrap` method ends the walk with false at call
`k + 1`. -/
theorem C9_As_walk_bounded_by_chain (err : GoError) (target : Target) (texts : List String)
    (c cell : CustomError) (text : String) :
    AsFuel (chainLen err + 1) err target = some (As err target) ∧
    (∀ fuel, chainLen err + 1 ≤ fuel → AsFuel fuel err target = some (As err target)) ∧
    (As (wrapAll texts (GoError.custom c)) (Target.ptr cell)
        = Outcome.ret (true, Target.ptr c) ∧
      AsFuel (texts.length + 1) (wrapAll texts (GoError.custom c)) (Target.ptr cell)
        = some (Outcome.ret (true, Target.ptr c)) ∧
      AsFuel texts.length (wrapAll texts (GoError.custom c)) (Target.ptr cell) = none) ∧
    (As (wrapAll texts (GoError.plain text)) (Target.ptr cell)
        = Outcome.ret (false, Target.ptr cell) ∧
      AsFuel (texts.length + 1) (wrapAll texts (GoError.plain text)) (Target.ptr cell)
        = some (Outcome.ret (false, Target.ptr cell)) ∧
      AsFuel texts.length (wrapAll texts (GoError.plain text)) (Target.ptr cell) = none) := by
  have hlen := chain_length err
  refine ⟨AsFuel_of_chain_le err target _ (by omega),
    fun fuel hf => AsFuel_of_chain_le err target fuel (by omega), ?_, ?_⟩
  · obtain ⟨h1, h2, h3⟩ := AsFuel_wrapAll texts (GoError.custom c) cell
    exact ⟨h3, h2, h1⟩
  · obtain ⟨h1, h2, h3⟩ := AsFuel_wrapAll texts (GoError.plain text) cell
    exact ⟨h3, h2, h1⟩

/-! ## Panics -/

/-- A target that is not a `*CustomError` makes `As` return false, for every
error. -/
theorem As_other_target (err : GoError) (descr : String) :
    As err (Target.other descr) = Outcome.ret (false, Target.other descr) := by
  cases err <;> rfl

/-- With a non-nil `*CustomError` target and a chain whose `Unwrap` calls all
return, `As` returns. -/
theorem As_returns_of_good_chain (err : GoError) (cell : CustomError)
    (h : ∀ e ∈ chain err, isBadUnwrap e = false) :
    ∃ r, As err (Target.ptr cell) = Outcome.ret r := by
  cases hf : firstCustom (chain err) with
  | none =>
    exact ⟨_, As_false_of_no_custom err cell h ((firstCustom_eq_none _).mp hf)⟩
  | some c => exact ⟨_, (As_true_iff_firstCustom err cell c).mpr hf⟩

/-- C10 at its failing inputs: with a nil `*CustomError` target, `As` panics on
an error that is a `CustomError` and on one that wraps a `CustomError` (the
write `*t = customErr` through the nil pointer), while a chain without a
`CustomError` returns false; and `As` and `IsType` panic on an error whose
`Unwrap` panics, such as a nil `*CustomError` held in an `error`. -/
theorem C10_As_panics_on_nil_target :
    As (New "a.go" 3 NotFoundError "user missing" GoError.nil) Target.nilPtr
      = Outcome.panic ∧
    As (GoError.wrapper "outer" (New "a.go" 3 NotFoundError "user missing" GoError.nil))
        Target.nilPtr = Outcome.panic ∧
    As (GoError.plain "io") Target.nilPtr = Outcome.ret (false, Target.nilPtr) ∧
    As (GoError.badUnwrap "nil *CustomError") (Target.ptr CustomError.zero)
      = Outcome.panic ∧
    IsType (GoError.badUnwrap "nil *CustomError") NotFoundError = Outcome.panic :=
  ⟨rfl, rfl, rfl, rfl, rfl⟩

end Errorutil

/-! # The enumeration of `ErrorType` -/

namespace Errorutil

/-- C11, as stated, fails: `New` called with an `ErrorType` outside the four
predefined values returns a `CustomError` of that `Type`. -/
theorem C11_counterexample :
    ∃ e : CustomError,
      New "a.go" 3 "TimeoutError" "slow" GoError.nil = GoError.custom e ∧
      ¬ (e.Typ = NotFoundError ∨ e.Typ = ValidationError ∨ e.Typ = DatabaseError ∨
          e.Typ = NetworkError) :=
  ⟨⟨"TimeoutError", "slow", GoError.nil, "a.go", 3⟩, rfl, by decide⟩

/-- C11, amended: the `Type` of the `CustomError` that `New` returns is the
`errType` it was passed, so it is one of `NotFoundError`, `ValidationError`,
`DatabaseError`, `NetworkError` exactly when `errType` is; the four are
distinct values of the string type `ErrorType`. -/
theorem C11_New_keeps_errType (file : String) (line : Int) (errType : ErrorType)
    (msg : String) (originalErr : GoError) :
    (∃ e : CustomError,
      New file line errType msg originalErr = GoError.custom e ∧ e.Typ = errType ∧
      ((e.Typ = NotFoundError ∨ e.Typ = ValidationError ∨ e.Typ = DatabaseError ∨
          e.Typ = NetworkError) ↔
        (errType = NotFoundError ∨ errType = ValidationError ∨ errType = DatabaseError ∨
          errType = NetworkError))) ∧
    [NotFoundError, ValidationError, DatabaseError, NetworkError].Nodup :=
  ⟨⟨⟨errType, msg, originalErr, file, line⟩, rfl, rfl, Iff.rfl⟩, by decide⟩

end Errorutil

/-! # `GenerateRandomString` -/

namespace Cryptoutil

/-- The function `hex.EncodeToString` gives two characters for every byte. -/
theorem EncodeToString_length (src : List Nat) :
    (EncodeToString src).length = 2 * src.length := by
  induction src with
  | nil => rfl
  | cons v rest ih =>
    simp only [EncodeToString, encodeByte, List.length_append, List.length_cons,
      List.length_nil, ih]
    omega

/-- A buffer that `io.ReadFull` filled has the length asked for. -/
theorem ReadFull_length (r : Reader) (n : Nat) (b : List Nat)
    (h : ReadFull r n = Except.ok b) : b.length = n := by
  unfold ReadFull at h
  split at h
  · injection h with h1
    subst h1
    simp [*]
  · cases r with
    | failing err => simp at h
    | stream next =>
      simp only [Except.ok.injEq] at h
      subst h
      simp

/-- Whenever `GenerateRandomString(length)` succeeds, the string has
`2 * length` characters. -/
theorem GenerateRandomString_length (r : Reader) (length : Int) (s : String)
    (h : GenerateRandomString r length = Errorutil.Outcome.ret (Except.ok s)) :
    s.length = 2 * length.toNat := by
  by_cases hn : length < 0
  · simp [GenerateRandomString, GenerateRandomBytes, hn] at h
  · cases hr : ReadFull r length.toNat with
    | error err => simp [GenerateRandomString, GenerateRandomBytes, hn, hr] at h
    | ok b =>
      simp only [GenerateRandomString, GenerateRandomBytes, hn, hr, if_false,
        Errorutil.Outcome.ret.injEq, Except.ok.injEq] at h
      subst h
      simp [String.length, EncodeToString_length, ReadFull_length r _ b hr]

/-- C12 at a failing input: `GenerateRandomString(1)` on a reader that yields
the byte `0xab` succeeds with the string `"ab"`, of 2 characters and not 1;
with length 3 it gives 6 characters. -/
theorem C12_GenerateRandomString_doubles_length :
    GenerateRandomString (Reader.stream (fun _ => 171)) 1
      = Errorutil.Outcome.ret (Except.ok "ab") ∧
    "ab".length = 2 ∧
    GenerateRandomString (Reader.stream (fun i => 16 * i + 10)) 3
      = Errorutil.Outcome.ret (Except.ok "0a1a2a") ∧
    "0a1a2a".length = 6 :=
  ⟨rfl, rfl, rfl, rfl⟩

end Cryptoutil

/-! # `DiffFiles` -/

namespace Fileutil

/-- Equal first lines are passed over by the loop. -/
theorem diffLines_cons_same (a : String) (l1 l2 : List String) :
    diffLines (a :: l1) (a :: l2) = diffLines l1 l2 := by
  simp [diffLines, diffLoop]

/-- Different first lines make the loop return true. -/
theorem diffLines_cons_ne (a b : String) (l1 l2 : List String) (h : a ≠ b) :
    diffLines (a :: l1) (b :: l2) = true := by
  simp [diffLines, diffLoop, h]

/-- What `DiffFiles` computes on two opened files: false exactly when the
lines are the same, or when the first file is the second followed by one
more line. -/
theorem diffLines_eq_false_iff : ∀ l1 l2 : List String,
    diffLines l1 l2 = false ↔ l1 = l2 ∨ ∃ x, l1 = l2 ++ [x]
  | [], l2 => by
    cases l2 <;> simp [diffLines, diffLoop, Scanner.Scan]
  | a :: l1, [] => by
    cases l1 <;> simp [diffLines, diffLoop, Scanner.Scan]
  | a :: l1, b :: l2 => by
    by_cases h : a = b
    · subst h
      rw [diffLines_cons_same, diffLines_eq_false_iff l1 l2]
      simp
    · rw [diffLines_cons_ne a b l1 l2 h]
      simp [h]

/-- C13 at a failing input: for a first file of lines `a`, `b` and a second
file of the line `a` alone, `DiffFiles` returns false, although the files
differ; with the two files exchanged, and with two extra lines, it returns
true. -/
theorem C13_DiffFiles_misses_one_extra_line :
    DiffFiles (fun p => if p = "one.txt" then Except.ok ["a", "b"] else Except.ok ["a"])
        "one.txt" "two.txt" = Except.ok false ∧
    DiffFiles (fun p => if p = "one.txt" then Except.ok ["a", "b"] else Except.ok ["a"])
        "two.txt" "one.txt" = Except.ok true ∧
    DiffFiles (fun p => if p = "one.txt" then Except.ok ["a", "b", "c"] else Except.ok ["a"])
        "one.txt" "two.txt" = Except.ok true :=
  ⟨rfl, rfl, rfl⟩

end Fileutil

/-! # `SliceJSONObjects` -/

namespace Jsonutil

/-- The chunk cut at index `i` holds the next `size` elements, or all that are
left when fewer are. -/
theorem sliceOf_chunk (objs : List JSON) (size i : Nat) :
    sliceOf objs i (if i + size > objs.length then objs.length else i + size)
      = (objs.drop i).take size := by
  unfold sliceOf
  split
  · rw [List.take_of_length_le (by simp), List.take_of_length_le (by simp; omega)]
  · congr 1
    omega

/-- The number of chunks still to come at index `i`, one step on. -/
theorem chunk_count_step (n size i : Nat) (hsize : 1 ≤ size) (hi : i < n) :
    (n - i + size - 1) / size = (n - (i + size) + size - 1) / size + 1 := by
  have h1 : n - i + size - 1 = (n - i - 1) + size := by omega
  rw [h1, Nat.add_div_right _ (by omega : 0 < size)]
  congr 1
  by_cases h : i + size ≤ n
  · congr 1
    omega
  · rw [Nat.div_eq_of_lt (by omega), Nat.div_eq_of_lt (by omega)]

/-- The loop of `SliceJSONObjects` from index `i`: with fuel for the elements
left it ends, having appended arrays that cut the rest of `objs` in order into
pieces of `size` elements, the last one possibly shorter. -/
theorem sliceLoop_spec (objs : List JSON) (size : Nat) (hsize : 1 ≤ size) :
    ∀ (k i : Nat), objs.length - i ≤ k →
      ∃ cs : List (List JSON),
        (∀ (fuel : Nat) (acc : List JSON), objs.length - i < fuel →
          sliceLoop objs size fuel i acc = some (acc ++ cs.map JSON.array)) ∧
        cs.flatten = objs.drop i ∧
        cs.length = (objs.length - i + size - 1) / size ∧
        (∀ c ∈ cs, 1 ≤ c.length ∧ c.length ≤ size) ∧
        (∀ c ∈ cs.dropLast, c.length = size) := by
  intro k
  induction k with
  | zero =>
    intro i h
    have hi : ¬ i < objs.length := by omega
    refine ⟨[], ?_, ?_, ?_, ?_, ?_⟩
    · intro fuel acc hf
      cases fuel with
      | zero => omega
      | succ f => simp [sliceLoop, hi]
    · simp [List.drop_eq_nil_of_le (Nat.le_of_not_lt hi)]
    · have h0 : objs.length - i = 0 := by omega
      rw [h0]
      simp only [List.length_nil, Nat.zero_add]
      exact (Nat.div_eq_of_lt (by omega)).symm
    · simp
    · simp
  | succ k ih =>
    intro i h
    by_cases hi : i < objs.length
    · obtain ⟨cs, h1, h2, h3, h4, h5⟩ := ih (i + size) (by omega)
      refine ⟨(objs.drop i).take size :: cs, ?_, ?_, ?_, ?_, ?_⟩
      · intro fuel acc hf
        cases fuel with
        | zero => omega
        | succ f =>
          simp only [sliceLoop, hi, if_true]
          rw [sliceOf_chunk, h1 f _ (by omega)]
          simp
      · simp only [List.flatten_cons, h2]
        rw [← List.drop_drop, List.take_append_drop]
      · simp only [List.length_cons, h3]
        exact (chunk_count_step objs.length size i hsize hi).symm
      · intro c hc
        rcases List.mem_cons.mp hc with rfl | hc
        · simp only [List.length_take, List.length_drop]
          omega
        · exact h4 c hc
      · intro c hc
        cases cs with
        | nil => simp at hc
        | cons d ds =>
          simp only [List.dropLast_cons₂, List.mem_cons] at hc
          rcases hc with rfl | hc
          · have hpos : 0 < (objs.length - (i + size) + size - 1) / size := by
              rw [← h3]; simp
            have : size ≤ objs.length - (i + size) + size - 1 := by
              by_contra hlt
              rw [Nat.div_eq_of_lt (by omega)] at hpos
              omega
            simp only [List.length_take, List.length_drop]
            omega
          · exact h5 c hc
    · exact ih i (by omega)

/-- C14: for a JSON array of `n` elements and `size ≥ 1`, `SliceJSONObjects`
returns (the loop ends within `n + 1` checks of its condition) `ceil(n/size)`
chunks, each the JSON array of at least 1 and at most `size` elements, every
chunk but the last of exactly `size`, and the elements of the chunks in order
are those of the input; for the empty array it returns no chunks. -/
theorem C14_SliceJSONObjects_chunks (objs : List JSON) (size : Nat) (hsize : 1 ≤ size) :
    ∃ chunks : List (List JSON),
      (∀ fuel, objs.length < fuel →
        SliceJSONObjects (JSON.array objs) size fuel
          = some (Except.ok (chunks.map JSON.array))) ∧
      chunks.length = (objs.length + size - 1) / size ∧
      (∀ c ∈ chunks, 1 ≤ c.length ∧ c.length ≤ size) ∧
      (∀ c ∈ chunks.dropLast, c.length = size) ∧
      chunks.flatten = objs ∧
      (objs = [] → chunks = []) := by
  obtain ⟨cs, h1, h2, h3, h4, h5⟩ := sliceLoop_spec objs size hsize objs.length 0 (by omega)
  refine ⟨cs, ?_, ?_, h4, h5, ?_, ?_⟩
  · intro fuel hf
    simp [SliceJSONObjects, h1 fuel [] (by omega)]
  · simpa using h3
  · simpa using h2
  · intro he
    subst he
    have : cs.length = 0 := by
      rw [h3]
      simp only [List.length_nil, Nat.zero_sub, Nat.zero_add]
      exact Nat.div_eq_of_lt (by omega)
    exact List.length_eq_zero.mp this

/-- Witness of C14: five elements in chunks of two. -/
theorem C14_SliceJSONObjects_chunks_witness :
    ∃ chunks : List (List JSON),
      (∀ fuel, 5 < fuel →
        SliceJSONObjects
          (JSON.array [JSON.null, JSON.bool true, JSON.number "3", JSON.string "x", JSON.null])
          2 fuel = some (Except.ok (chunks.map JSON.array))) ∧
      chunks.length = 3 ∧
      (∀ c ∈ chunks, 1 ≤ c.length ∧ c.length ≤ 2) ∧
      (∀ c ∈ chunks.dropLast, c.length = 2) ∧
      chunks.flatten
        = [JSON.null, JSON.bool true, JSON.number "3", JSON.string "x", JSON.null] ∧
      ([JSON.null, JSON.bool true, JSON.number "3", JSON.string "x", JSON.null] = [] →
        chunks = []) :=
  C14_SliceJSONObjects_chunks
    [JSON.null, JSON.bool true, JSON.number "3", JSON.string "x", JSON.null] 2 (by decide)

end Jsonutil

/-! # `MergeJSON` -/

namespace Jsonutil

/-- Reading a map after an assignment. -/
theorem GoMap.get_set (m : GoMap) (k : String) (v : JSON) (k2 : String) :
    GoMap.get (GoMap.set m k v) k2 = if k = k2 then some v else GoMap.get m k2 := by
  induction m with
  | nil => simp [GoMap.set, GoMap.get]
  | cons e rest ih =>
    obtain ⟨k3, v3⟩ := e
    by_cases h : k3 = k
    · subst h
      by_cases h2 : k3 = k2 <;> simp [GoMap.set, GoMap.get, h2]
    · by_cases h2 : k3 = k2
      · subst h2
        simp [GoMap.set, GoMap.get, h, Ne.symm h]
      · simp [GoMap.set, GoMap.get, h, h2, ih]

/-- A key that no entry has reads as absent. -/
theorem GoMap.get_eq_none (m : GoMap) (k : String) (h : k ∉ m.map Prod.fst) :
    GoMap.get m k = none := by
  induction m with
  | nil => rfl
  | cons e rest ih =>
    obtain ⟨k3, v3⟩ := e
    simp only [List.map_cons, List.mem_cons, not_or] at h
    simp [GoMap.get, Ne.symm h.1, ih h.2]

/-- A key that reads as absent is the key of no entry. -/
theorem GoMap.not_mem_of_get_eq_none (m : GoMap) (k : String) (h : GoMap.get m k = none) :
    k ∉ m.map Prod.fst := by
  induction m with
  | nil => simp
  | cons e rest ih =>
    obtain ⟨k3, v3⟩ := e
    by_cases h3 : k3 = k
    · simp [GoMap.get, h3] at h
    · simp only [GoMap.get, h3, if_false] at h
      simp only [List.map_cons, List.mem_cons, not_or]
      exact ⟨Ne.symm h3, ih h⟩

/-- The keys after an assignment: unchanged when the key was there, else one
more. -/
theorem GoMap.keys_set (m : GoMap) (k : String) (v : JSON) :
    (GoMap.set m k v).map Prod.fst
      = if k ∈ m.map Prod.fst then m.map Prod.fst else m.map Prod.fst ++ [k] := by
  induction m with
  | nil => simp [GoMap.set]
  | cons e rest ih =>
    obtain ⟨k3, v3⟩ := e
    by_cases h : k3 = k
    · subst h
      simp [GoMap.set]
    · by_cases hm : k ∈ rest.map Prod.fst
      · simp [GoMap.set, h, ih, hm]
      · have hm2 : ¬ ∃ x, (k, x) ∈ rest := by
          simpa using hm
        simp [GoMap.set, h, ih, hm, Ne.symm h, hm2]

/-- An assignment keeps the keys of a map distinct. -/
theorem GoMap.nodup_set (m : GoMap) (k : String) (v : JSON) (h : (m.map Prod.fst).Nodup) :
    ((GoMap.set m k v).map Prod.fst).Nodup := by
  rw [GoMap.keys_set]
  split
  · exact h
  · rename_i hk
    exact List.Nodup.append h (List.nodup_singleton k) (by simpa using hk)

/-- The loop of `MergeJSON` on a non-nil map does not panic, and reads as the
second object where that has the key and as the first elsewhere. -/
theorem mergeRange_spec : ∀ (o2 : List (String × JSON)) (obj1 : GoMap),
    (o2.map Prod.fst).Nodup →
    ∃ merged : GoMap,
      mergeRange (some obj1) o2 = Errorutil.Outcome.ret (some merged) ∧
      (∀ k v, GoMap.get o2 k = some v → GoMap.get merged k = some v) ∧
      (∀ k, GoMap.get o2 k = none → GoMap.get merged k = GoMap.get obj1 k) ∧
      ((obj1.map Prod.fst).Nodup → (merged.map Prod.fst).Nodup)
  | [], obj1, _ => ⟨obj1, rfl, by simp [GoMap.get], fun _ _ => rfl, id⟩
  | (k1, v1) :: rest, obj1, h => by
    simp only [List.map_cons, List.nodup_cons] at h
    obtain ⟨merged, g1, g2, g3, g4⟩ := mergeRange_spec rest (GoMap.set obj1 k1 v1) h.2
    refine ⟨merged, by simpa [mergeRange] using g1, ?_, ?_, ?_⟩
    · intro k v hk
      by_cases hk1 : k1 = k
      · subst hk1
        simp only [GoMap.get, if_true] at hk
        rw [g3 k1 (GoMap.get_eq_none rest k1 h.1), GoMap.get_set]
        simpa using hk
      · simp only [GoMap.get, hk1, if_false] at hk
        exact g2 k v hk
    · intro k hk
      by_cases hk1 : k1 = k
      · simp [GoMap.get, hk1] at hk
      · simp only [GoMap.get, hk1, if_false] at hk
        rw [g3 k hk, GoMap.get_set]
        simp [hk1]
    · intro hn
      exact g4 (GoMap.nodup_set obj1 k1 v1 hn)

/-- C15: for two JSON objects `o1` and `o2`, `MergeJSON` returns, without a
panic or an error, the object in which every key of `o2` has the value of
`o2`, every other key reads as in `o1`, so the keys are those of `o1` and of
`o2` together, each once; the merge is shallow: an object under a key of both
is replaced by that of `o2`, not merged with it. -/
theorem C15_MergeJSON_second_overrides (o1 o2 : List (String × JSON))
    (h1 : (o1.map Prod.fst).Nodup) (h2 : (o2.map Prod.fst).Nodup) :
    (∃ merged : GoMap,
      MergeJSON (JSON.object o1) (JSON.object o2)
        = Errorutil.Outcome.ret (Except.ok (JSON.object merged)) ∧
      (∀ k v, GoMap.get o2 k = some v → GoMap.get merged k = some v) ∧
      (∀ k, GoMap.get o2 k = none → GoMap.get merged k = GoMap.get o1 k) ∧
      (∀ k, k ∈ merged.map Prod.fst ↔ k ∈ o1.map Prod.fst ∨ k ∈ o2.map Prod.fst) ∧
      (merged.map Prod.fst).Nodup) ∧
    MergeJSON
        (JSON.object [("a", JSON.object [("x", JSON.number "1")]), ("b", JSON.null)])
        (JSON.object [("a", JSON.object [("y", JSON.number "2")])])
      = Errorutil.Outcome.ret (Except.ok
          (JSON.object [("a", JSON.object [("y", JSON.number "2")]), ("b", JSON.null)])) := by
  refine ⟨?_, rfl⟩
  obtain ⟨merged, g1, g2, g3, g4⟩ := mergeRange_spec o2 o1 h2
  refine ⟨merged, ?_, g2, g3, ?_, g4 h1⟩
  · simp [MergeJSON, unmarshalMap, g1, marshalMap]
  · intro k
    cases hk2 : GoMap.get o2 k with
    | some v =>
      have hm := g2 k v hk2
      constructor
      · intro _
        right
        by_contra hc
        rw [GoMap.get_eq_none o2 k hc] at hk2
        cases hk2
      · intro _
        by_contra hc
        rw [GoMap.get_eq_none merged k hc] at hm
        cases hm
    | none =>
      have hm := g3 k hk2
      have hn2 := GoMap.not_mem_of_get_eq_none o2 k hk2
      constructor
      · intro hmem
        left
        by_contra hc
        rw [GoMap.get_eq_none o1 k hc] at hm
        exact GoMap.not_mem_of_get_eq_none merged k hm hmem
      · rintro (hmem | hmem)
        · by_contra hc
          rw [GoMap.get_eq_none merged k hc] at hm
          exact GoMap.not_mem_of_get_eq_none o1 k hm.symm hmem
        · exact absurd hmem hn2

/-- Witness of C15: a conflict on `a`, and one key of each object alone. -/
theorem C15_MergeJSON_second_overrides_witness :
    (∃ merged : GoMap,
      MergeJSON (JSON.object [("a", JSON.number "1"), ("b", JSON.bool true)])
          (JSON.object [("c", JSON.null), ("a", JSON.number "2")])
        = Errorutil.Outcome.ret (Except.ok (JSON.object merged)) ∧
      (∀ k v, GoMap.get [("c", JSON.null), ("a", JSON.number "2")] k = some v →
        GoMap.get merged k = some v) ∧
      (∀ k, GoMap.get [("c", JSON.null), ("a", JSON.number "2")] k = none →
        GoMap.get merged k = GoMap.get [("a", JSON.number "1"), ("b", JSON.bool true)] k) ∧
      (∀ k, k ∈ merged.map Prod.fst ↔
        k ∈ [("a", JSON.number "1"), ("b", JSON.bool true)].map Prod.fst ∨
        k ∈ [("c", JSON.null), ("a", JSON.number "2")].map Prod.fst) ∧
      (merged.map Prod.fst).Nodup) ∧
    MergeJSON
        (JSON.object [("a", JSON.object [("x", JSON.number "1")]), ("b", JSON.null)])
        (JSON.object [("a", JSON.object [("y", JSON.number "2")])])
      = Errorutil.Outcome.ret (Except.ok
          (JSON.object [("a", JSON.object [("y", JSON.number "2")]), ("b", JSON.null)])) :=
  C15_MergeJSON_second_overrides [("a", JSON.number "1"), ("b", JSON.bool true)]
    [("c", JSON.null), ("a", JSON.number "2")] (by decide) (by decide)

end Jsonutil

/-! # `FlattenJSON` -/

namespace Jsonutil

/-- The path step `fmt.Sprintf("%s.%s", currentPath, k)`. -/
theorem newPath_eq (currentPath k : String) :
    (Errorutil.Sprintf "%s.%s"
      [Errorutil.FmtArg.str currentPath, Errorutil.FmtArg.str k]).getD ""
      = currentPath ++ "." ++ k := by
  apply String.ext
  simp [Errorutil.Sprintf, Errorutil.sprintfChars]

/-- Assignments one after the other. -/
theorem putAll_append (m : GoMap) (ws1 ws2 : List (String × JSON)) :
    putAll m (ws1 ++ ws2) = putAll (putAll m ws1) ws2 := by
  simp [putAll, List.foldl_append]

/-- The values under a key `k`, seen from the path extended by `k`. -/
theorem writes_under_key (currentPath k : String) (found : List (List String × JSON)) :
    writes currentPath (found.map (fun pv => (k :: pv.1, pv.2)))
      = writes (currentPath ++ "." ++ k) found := by
  simp [writes, extendPath, List.map_map, Function.comp_def]

mutual
/-- The helper `flatten` makes the assignments of the non-object values under
`value`, in order. -/
theorem flatten_eq_putAll : ∀ (value : JSON) (currentPath : String) (flatMap : GoMap),
    flatten currentPath value flatMap = putAll flatMap (writes currentPath (leaves value))
  | JSON.object fields, currentPath, flatMap => by
    rw [flatten, leaves]
    exact flattenRange_eq_putAll fields currentPath flatMap
  | JSON.null, currentPath, flatMap => by
    simp [flatten, leaves, writes, putAll, extendPath]
  | JSON.bool b, currentPath, flatMap => by
    simp [flatten, leaves, writes, putAll, extendPath]
  | JSON.number text, currentPath, flatMap => by
    simp [flatten, leaves, writes, putAll, extendPath]
  | JSON.string s, currentPath, flatMap => by
    simp [flatten, leaves, writes, putAll, extendPath]
  | JSON.array items, currentPath, flatMap => by
    simp [flatten, leaves, writes, putAll, extendPath]
/-- The loop of `flatten` makes the assignments of the non-object values
under the entries, in order. -/
theorem flattenRange_eq_putAll : ∀ (fields : List (String × JSON)) (currentPath : String)
    (flatMap : GoMap),
    flattenRange currentPath fields flatMap
      = putAll flatMap (writes currentPath (leavesOfFields fields))
  | [], currentPath, flatMap => by
    simp [flattenRange, leavesOfFields, writes, putAll]
  | (k, v) :: rest, currentPath, flatMap => by
    rw [flattenRange, newPath_eq, flatten_eq_putAll v, flattenRange_eq_putAll rest,
      leavesOfFields]
    have h : writes currentPath
        ((leaves v).map (fun pv => (k :: pv.1, pv.2)) ++ leavesOfFields rest)
        = writes (currentPath ++ "." ++ k) (leaves v)
          ++ writes currentPath (leavesOfFields rest) := by
      rw [← writes_under_key]
      simp [writes]
    rw [h, putAll_append]
end

/-- Trimming the "." that a path string starts with. -/
theorem TrimPrefix_dot (s : String) : TrimPrefix ("." ++ s) "." = s := by
  apply String.ext
  simp [TrimPrefix]

/-- The path string along keys, against the accumulator of `String.intercalate`. -/
theorem extendPath_dot (path : List String) : ∀ acc : String,
    extendPath ("." ++ acc) path = "." ++ String.intercalate.go acc "." path := by
  induction path with
  | nil => intro acc; simp [extendPath, String.intercalate.go]
  | cons a rest ih =>
    intro acc
    have h := ih (acc ++ "." ++ a)
    simp only [extendPath, List.foldl_cons, String.intercalate.go] at h ⊢
    rw [← h]
    simp [String.append_assoc]

/-- From the top of the document, the trimmed path string of a path with at
least one key is its keys joined with ".". -/
theorem TrimPrefix_extendPath (k : String) (path : List String) :
    TrimPrefix (extendPath "" (k :: path)) "." = joinPath (k :: path) := by
  have h := extendPath_dot path k
  have e : extendPath "" (k :: path) = extendPath ("." ++ k) path := by
    simp [extendPath]
  rw [e, h, TrimPrefix_dot]
  simp [joinPath, String.intercalate]

/-- Every value under the entries of an object has a key on its path. -/
theorem leavesOfFields_path_ne_nil : ∀ (fields : List (String × JSON))
    (pv : List String × JSON), pv ∈ leavesOfFields fields → ∃ k rest, pv.1 = k :: rest
  | [], pv, h => by simp [leavesOfFields] at h
  | (k, v) :: more, pv, h => by
    rw [leavesOfFields, List.mem_append] at h
    rcases h with h | h
    · obtain ⟨q, _, rfl⟩ := List.mem_map.mp h
      exact ⟨k, q.1, rfl⟩
    · exact leavesOfFields_path_ne_nil more pv h

/-- The assignments made for an object at the top of the document: each value
under the keys of its path joined with ".". -/
theorem writes_top (fields : List (String × JSON)) :
    writes "" (leavesOfFields fields)
      = (leavesOfFields fields).map (fun pv => (joinPath pv.1, pv.2)) := by
  unfold writes
  apply List.map_congr_left
  intro pv hpv
  obtain ⟨k, rest, hk⟩ := leavesOfFields_path_ne_nil fields pv hpv
  rw [hk, TrimPrefix_extendPath]

/-- An entry read after a sequence of assignments was there before or was
assigned. -/
theorem get_putAll_some : ∀ (ws : List (String × JSON)) (m : GoMap) (k : String) (v : JSON),
    GoMap.get (putAll m ws) k = some v → GoMap.get m k = some v ∨ (k, v) ∈ ws
  | [], m, k, v, h => Or.inl h
  | (k1, v1) :: rest, m, k, v, h => by
    have h2 := get_putAll_some rest (GoMap.set m k1 v1) k v h
    rcases h2 with h2 | h2
    · rw [GoMap.get_set] at h2
      by_cases hk : k1 = k
      · simp only [hk, if_true, Option.some.injEq] at h2
        right
        simp [hk, h2]
      · simp only [hk, if_false] at h2
        exact Or.inl h2
    · right
      simp [h2]

/-- A key present stays present through assignments. -/
theorem get_putAll_isSome_of_isSome : ∀ (ws : List (String × JSON)) (m : GoMap) (k : String),
    (GoMap.get m k).isSome → (GoMap.get (putAll m ws) k).isSome
  | [], m, k, h => h
  | (k1, v1) :: rest, m, k, h => by
    apply get_putAll_isSome_of_isSome rest (GoMap.set m k1 v1) k
    rw [GoMap.get_set]
    split
    · rfl
    · exact h

/-- Every key assigned is present afterwards. -/
theorem get_putAll_isSome : ∀ (ws : List (String × JSON)) (m : GoMap) (k : String) (v : JSON),
    (k, v) ∈ ws → (GoMap.get (putAll m ws) k).isSome
  | [], _, k, v, h => by simp at h
  | (k1, v1) :: rest, m, k, v, h => by
    rcases List.mem_cons.mp h with h | h
    · injection h with h1 h2
      subst h1
      apply get_putAll_isSome_of_isSome rest (GoMap.set m k v1) k
      simp [GoMap.get_set]
    · exact get_putAll_isSome rest (GoMap.set m k1 v1) k v h

/-- A key that is not assigned reads as before. -/
theorem get_putAll_of_not_mem : ∀ (ws : List (String × JSON)) (m : GoMap) (k : String),
    k ∉ ws.map Prod.fst → GoMap.get (putAll m ws) k = GoMap.get m k
  | [], m, k, _ => rfl
  | (k1, v1) :: rest, m, k, h => by
    simp only [List.map_cons, List.mem_cons, not_or] at h
    have h2 := get_putAll_of_not_mem rest (GoMap.set m k1 v1) k h.2
    simp only [putAll, List.foldl_cons] at h2 ⊢
    rw [h2, GoMap.get_set]
    simp [Ne.symm h.1]

/-- When every key is assigned once, each assigned value is what is read. -/
theorem get_putAll_nodup : ∀ (ws : List (String × JSON)) (m : GoMap) (k : String) (v : JSON),
    (ws.map Prod.fst).Nodup → (k, v) ∈ ws → GoMap.get (putAll m ws) k = some v
  | [], m, k, v, _, h => by simp at h
  | (k1, v1) :: rest, m, k, v, hn, h => by
    simp only [List.map_cons, List.nodup_cons] at hn
    rcases List.mem_cons.mp h with h | h
    · injection h with h1 h2
      subst h1
      subst h2
      have h3 := get_putAll_of_not_mem rest (GoMap.set m k v) k hn.1
      simp only [putAll, List.foldl_cons] at h3 ⊢
      rw [h3]
      simp [GoMap.get_set]
    · exact get_putAll_nodup rest (GoMap.set m k1 v1) k v hn.2 h

/-- The keys of a map stay distinct through assignments. -/
theorem nodup_putAll : ∀ (ws : List (String × JSON)) (m : GoMap),
    (m.map Prod.fst).Nodup → ((putAll m ws).map Prod.fst).Nodup
  | [], _, h => h
  | (k1, v1) :: rest, m, h =>
    nodup_putAll rest (GoMap.set m k1 v1) (GoMap.nodup_set m k1 v1 h)

/-- The keys after assignments are the old keys and the assigned ones. -/
theorem mem_keys_putAll : ∀ (ws : List (String × JSON)) (m : GoMap) (k : String),
    k ∈ (putAll m ws).map Prod.fst ↔ k ∈ m.map Prod.fst ∨ k ∈ ws.map Prod.fst
  | [], m, k => by simp [putAll]
  | (k1, v1) :: rest, m, k => by
    have h := mem_keys_putAll rest (GoMap.set m k1 v1) k
    simp only [putAll, List.foldl_cons] at h ⊢
    rw [h, GoMap.keys_set]
    split <;> rename_i hk
    · simp only [List.map_cons, List.mem_cons]
      constructor
      · rintro (h1 | h1)
        · exact Or.inl h1
        · exact Or.inr (Or.inr h1)
      · rintro (h1 | h1 | h1)
        · exact Or.inl h1
        · subst h1; exact Or.inl hk
        · exact Or.inr h1
    · simp only [List.mem_append, List.mem_singleton, List.map_cons, List.mem_cons]
      tauto

/-- Assignments of distinct keys to an empty map give one entry each. -/
theorem length_putAll_nil (ws : List (String × JSON)) (h : (ws.map Prod.fst).Nodup) :
    (putAll [] ws).length = ws.length := by
  have hn : ((putAll [] ws).map Prod.fst).Nodup := nodup_putAll ws [] (by simp)
  have hp : List.Perm ((putAll [] ws).map Prod.fst) (ws.map Prod.fst) := by
    rw [List.perm_ext_iff_of_nodup hn h]
    intro k
    rw [mem_keys_putAll]
    simp
  simpa using hp.length_eq

/-- What `FlattenJSON` returns for an object: the assignments, to an empty
map, of each non-object value under the keys of its path joined with ".". -/
theorem FlattenJSON_object (fields : List (String × JSON)) :
    FlattenJSON (JSON.object fields)
      = Except.ok (putAll []
          ((leaves (JSON.object fields)).map (fun pv => (joinPath pv.1, pv.2)))) := by
  simp only [FlattenJSON, unmarshalMap]
  rw [flatten_eq_putAll, leaves, writes_top]

/-- C16, as stated, fails: in `{"a.b": 1, "a": {"b": 2}}` the paths `a.b` and
`a`, `b` join to the same compound key, and of the two values the flat map
keeps one, the one assigned last, in either order of the range over the map. -/
theorem C16_counterexample :
    FlattenJSON (JSON.object
        [("a.b", JSON.number "1"), ("a", JSON.object [("b", JSON.number "2")])])
      = Except.ok [("a.b", JSON.number "2")] ∧
    FlattenJSON (JSON.object
        [("a", JSON.object [("b", JSON.number "2")]), ("a.b", JSON.number "1")])
      = Except.ok [("a.b", JSON.number "1")] ∧
    leaves (JSON.object
        [("a.b", JSON.number "1"), ("a", JSON.object [("b", JSON.number "2")])])
      = [(["a.b"], JSON.number "1"), (["a", "b"], JSON.number "2")] ∧
    joinPath ["a.b"] = joinPath ["a", "b"] :=
  ⟨rfl, rfl, rfl, rfl⟩

/-- C16, amended: for a nested JSON object in which no two paths to non-object
values join to the same compound key, `FlattenJSON` returns a flat map with
exactly one entry for every non-object value, under the keys of its path
joined with ".", holding that value. Also without that condition every entry
of the map holds a non-object value of the document under its joined path, and
every joined path is a key of the map. -/
theorem C16_FlattenJSON_distinct_keys (fields : List (String × JSON))
    (h : ((leaves (JSON.object fields)).map (fun pv => joinPath pv.1)).Nodup) :
    ∃ flatMap : GoMap,
      FlattenJSON (JSON.object fields) = Except.ok flatMap ∧
      (∀ path v, (path, v) ∈ leaves (JSON.object fields) →
        GoMap.get flatMap (joinPath path) = some v) ∧
      (∀ k v, GoMap.get flatMap k = some v →
        ∃ path, (path, v) ∈ leaves (JSON.object fields) ∧ joinPath path = k) ∧
      flatMap.length = (leaves (JSON.object fields)).length ∧
      (flatMap.map Prod.fst).Nodup := by
  have hk : (((leaves (JSON.object fields)).map
      (fun pv => (joinPath pv.1, pv.2))).map Prod.fst).Nodup := by
    simpa [List.map_map, Function.comp_def] using h
  refine ⟨_, FlattenJSON_object fields, ?_, ?_, ?_, ?_⟩
  · intro path v hpv
    apply get_putAll_nodup _ _ _ _ hk
    exact List.mem_map.mpr ⟨(path, v), hpv, rfl⟩
  · intro k v hg
    rcases get_putAll_some _ _ _ _ hg with h0 | h0
    · simp [GoMap.get] at h0
    · obtain ⟨pv, hpv, he⟩ := List.mem_map.mp h0
      injection he with h1 h2
      subst h2
      exact ⟨pv.1, hpv, h1⟩
  · rw [length_putAll_nil _ hk]
    simp
  · exact nodup_putAll _ [] (by simp)

/-- Witness of the amended C16: an object two levels deep. -/
theorem C16_FlattenJSON_distinct_keys_witness :
    ∃ flatMap : GoMap,
      FlattenJSON (JSON.object
          [("a", JSON.object [("b", JSON.number "1"), ("c", JSON.array [JSON.null])]),
            ("d", JSON.string "x")]) = Except.ok flatMap ∧
      (∀ path v, (path, v) ∈ leaves (JSON.object
          [("a", JSON.object [("b", JSON.number "1"), ("c", JSON.array [JSON.null])]),
            ("d", JSON.string "x")]) →
        GoMap.get flatMap (joinPath path) = some v) ∧
      (∀ k v, GoMap.get flatMap k = some v →
        ∃ path, (path, v) ∈ leaves (JSON.object
          [("a", JSON.object [("b", JSON.number "1"), ("c", JSON.array [JSON.null])]),
            ("d", JSON.string "x")]) ∧ joinPath path = k) ∧
      flatMap.length = (leaves (JSON.object
          [("a", JSON.object [("b", JSON.number "1"), ("c", JSON.array [JSON.null])]),
            ("d", JSON.string "x")])).length ∧
      (flatMap.map Prod.fst).Nodup :=
  C16_FlattenJSON_distinct_keys
    [("a", JSON.object [("b", JSON.number "1"), ("c", JSON.array [JSON.null])]),
      ("d", JSON.string "x")] (by decide)

/-! # `ExtractValue` -/

/-- A key that the object lacks, as the last segment of the path, is read as
nil and the loop ends without the error. -/
theorem extractLoop_absent_last (objMap : GoMap) (part : String)
    (h : GoMap.get objMap part = none) :
    extractLoop (JSON.object objMap) [part] = some JSON.null := by
  simp [extractLoop, h]

/-- A key that the object lacks, before the last segment, leads to the error:
the nil read for it is no object. -/
theorem extractLoop_absent_inner (objMap : GoMap) (part next : String) (rest : List String)
    (h : GoMap.get objMap part = none) :
    extractLoop (JSON.object objMap) (part :: next :: rest) = none := by
  simp [extractLoop, h]

/-- C17 at its failing inputs: for a path whose last segment names a key that
the object lacks, `ExtractValue` returns nil and no error, at the top of the
document and under a key; a segment applied to a non-object value, and an
absent key that is not the last segment, return the error "path not found";
a path that exists returns its value. -/
theorem C17_ExtractValue_absent_last_key :
    ExtractValue (JSON.object [("a", JSON.number "1")]) "b" = Except.ok JSON.null ∧
    ExtractValue (JSON.object [("a", JSON.object [("b", JSON.number "1")])]) "a.c"
      = Except.ok JSON.null ∧
    ExtractValue (JSON.object [("a", JSON.number "1")]) "a.b"
      = Except.error "path not found: a.b" ∧
    ExtractValue (JSON.object [("a", JSON.number "1")]) "b.c"
      = Except.error "path not found: b.c" ∧
    ExtractValue (JSON.object [("a", JSON.object [("b", JSON.number "1")])]) "a.b"
      = Except.ok (JSON.number "1") :=
  ⟨rfl, rfl, rfl, rfl, rfl⟩

end Jsonutil
